import Mathlib

/-!
# Verification of the subvault exchange-rate cache & conversion engine

Shallow embedding of `internal/service` `CurrencyService` (the exchange-rate
cache and conversion engine) together with the fragments of its collaborators
that its behaviour depends on.  Go `float64` values are modelled as `ℚ`,
Go `time.Time` / `time.Duration` as `Int` nanoseconds, and the Go map
`map[string]float64` as an association list with insert-or-replace update.
External effects (the persisted rate store, the remote ECB feed, the settings
store and the wall clock) are supplied through an explicit environment value,
and every operation additionally reports the list of store/feed calls it made.
-/

namespace Subvault

/-- One persisted exchange-rate row (`models.ExchangeRate`): base currency,
quoted currency, rate relative to the base, and capture date. -/
structure ExchangeRate where
  baseCurrency : String
  currency : String
  rate : ℚ
  date : Int
  deriving Repr, DecidableEq, Inhabited

/-- Modelled from the spec: the `models.ExchangeRate.IsStaleAfter` method is not
under `src/` (only its caller is).  Per the spec, a persisted snapshot is
adopted as fresh exactly when its age is within the refresh interval, so it is
stale after `interval` iff `now - date ≥ interval`. -/
def ExchangeRate.isStaleAfter (r : ExchangeRate) (now interval : Int) : Bool :=
  decide (interval ≤ now - r.date)

/-- Go's `time.Hour` in nanoseconds. -/
def timeHour : Int := 3600000000000

/-- Currencies quoted by the ECB daily feed (EUR is implicit as the base). -/
def ecbCurrencies : List String :=
  ["USD", "JPY", "GBP", "CHF", "SEK", "PLN", "INR", "BRL", "AUD", "CAD",
   "CNY", "CZK", "DKK", "HKD", "HUF", "IDR", "ILS", "ISK", "KRW", "MXN",
   "MYR", "NOK", "NZD", "PHP", "RON", "SGD", "THB", "TRY", "ZAR"]

/-- The full list of currencies supported by the application (ECB-quoted
currencies first, then the ones the ECB does not quote). -/
def SupportedCurrencies : List String :=
  ["EUR", "USD", "GBP", "JPY", "CHF", "SEK", "PLN", "INR", "BRL",
   "AUD", "CAD", "CNY", "CZK", "DKK", "HKD", "HUF", "IDR", "ILS",
   "ISK", "KRW", "MXN", "MYR", "NOK", "NZD", "PHP", "RON", "SGD",
   "THB", "TRY", "ZAR",
   "RUB", "COP", "BDT"]

/-- `HasECBRate`: whether the ECB provides exchange rates for this currency. -/
def HasECBRate (currency : String) : Bool :=
  if currency = "EUR" then true else ecbCurrencies.contains currency

/-- Insert-or-replace update of an association list, modelling Go's
`m[k] = v` on `map[string]float64`. -/
def mapInsert (m : List (String × ℚ)) (k : String) (v : ℚ) : List (String × ℚ) :=
  if m.any (fun p => p.1 = k) then
    m.map (fun p => if p.1 = k then (k, v) else p)
  else
    m ++ [(k, v)]

/-- Lookup in the association-list map, modelling Go's `v, ok := m[k]`. -/
def mapGet (m : List (String × ℚ)) (k : String) : Option ℚ :=
  (m.find? (fun p => p.1 = k)).map (fun p => p.2)

/-- The distinct error values produced by the engine (each constructor is one
`fmt.Errorf` site of the Go code; transport failure, a non-200 status and a
decode failure are collapsed into `fetchUnreachable` since the engine treats
them identically). -/
inductive RateError where
  | fetchUnreachable : RateError
  | emptyPayload : RateError
  | noRatesAvailable : RateError → RateError
  | unsupportedCurrency : String → String → RateError
  | unsupportedPair : String → String → RateError
  | refreshFailed : RateError → RateError
  deriving Repr, DecidableEq

/-- The external calls an operation can make, for stating which collaborators
were (not) touched.  `deleteStaleRates` records the cutoff age passed. -/
inductive Effect where
  | getLatestRates : Effect
  | fetchECB : Effect
  | saveRates : Effect
  | deleteStaleRates : Int → Effect
  deriving Repr, DecidableEq

/-- The mutable state of `CurrencyService`, together with the persisted rate
store it owns through `ExchangeRateRepository`.  `store` models the store's
latest EUR-based batch (`none`: no snapshot persisted).  An empty
`rateSource` plays the role of Go's zero value "". -/
structure CurrencyService where
  eurRates : List (String × ℚ)
  rateDate : Int
  rateSource : String
  lastError : Option RateError
  lastFetch : Int
  store : Option (List ExchangeRate)
  deriving Repr, DecidableEq

/-- `NewCurrencyService`: empty cache over a given initial store content. -/
def initService (store₀ : Option (List ExchangeRate)) : CurrencyService :=
  { eurRates := []
    rateDate := 0
    rateSource := ""
    lastError := none
    lastFetch := 0
    store := store₀ }

/-- The per-call external environment: the current instant, whether the store
read/write/delete calls succeed, the outcome of the remote ECB fetch
(`none`: transport/status/decode failure; `some l`: the parsed currency/rate
pairs), and the value the settings service returns for the refresh-hours key. -/
structure Env where
  now : Int
  dbReadOk : Bool
  fetch : Option (List (String × ℚ))
  saveOk : Bool
  deleteOk : Bool
  settingHours : Int
  deriving Repr, DecidableEq

/-- The remote fetch fails: transport/status/decode failure, or a payload
with zero rate entries. -/
def fetchFails (env : Env) : Prop :=
  env.fetch = none ∨ env.fetch = some []

instance (env : Env) : Decidable (fetchFails env) := by
  unfold fetchFails; infer_instance

/-- `getRefreshInterval`: the configured refresh interval; the settings value
is clamped below at one hour. -/
def getRefreshInterval (env : Env) : Int :=
  (if env.settingHours < 1 then 1 else env.settingHours) * timeHour

/-- The freshness predicate of `ensureRates`:
`len(s.eurRates) > 0 && time.Since(s.rateDate) < interval`. -/
def isFresh (s : CurrencyService) (now interval : Int) : Bool :=
  decide (0 < s.eurRates.length) && decide (now - s.rateDate < interval)

/-- `loadRatesLocked`: populate the in-memory cache from persisted rows.
The rate date is taken from the first row (callers only pass non-empty
lists); `lastError` and `lastFetch` are left as they are. -/
def loadRatesLocked (s : CurrencyService) (rates : List ExchangeRate)
    (source : String) : CurrencyService :=
  { s with
    eurRates := rates.foldl (fun m r => mapInsert m r.currency r.rate) [("EUR", 1)]
    rateDate := (rates.headD default).date
    rateSource := source }

/-- The in-memory map produced by loading a list of persisted rows. -/
def dbRatesToMap (rates : List ExchangeRate) : List (String × ℚ) :=
  rates.foldl (fun m r => mapInsert m r.currency r.rate) [("EUR", 1)]

/-- `fetchAndCacheRatesLocked`: fetch all EUR-based rates from the ECB,
populate the in-memory cache and best-effort persist them (a save failure is
logged and swallowed).  Returns the updated state, the error if any, and the
external calls made. -/
def fetchAndCacheRatesLocked (s : CurrencyService) (env : Env) :
    CurrencyService × Option RateError × List Effect :=
  match env.fetch with
  | none => (s, some RateError.fetchUnreachable, [Effect.fetchECB])
  | some ecbRates =>
    if ecbRates.isEmpty then
      (s, some RateError.emptyPayload, [Effect.fetchECB])
    else
      let m := ecbRates.foldl (fun m r => mapInsert m r.1 r.2) [("EUR", 1)]
      let s' := { s with
        eurRates := m
        rateDate := env.now
        rateSource := "ecb"
        lastFetch := env.now
        lastError := none }
      let s'' :=
        if env.saveOk then
          { s' with store := some (m.map (fun p =>
              { baseCurrency := "EUR", currency := p.1, rate := p.2, date := env.now })) }
        else s'
      (s'', none, [Effect.fetchECB, Effect.saveRates])

/-- The body of `ensureRates` once the write lock is held and the double-check
has failed: try fresh persisted rates, then the remote fetch, then stale
persisted rates, and only then fail. -/
def ensureRatesLockedBody (s : CurrencyService) (env : Env) (interval : Int) :
    CurrencyService × Option RateError × List Effect :=
  let ratesOpt : Option (List ExchangeRate) :=
    if env.dbReadOk then some (s.store.getD []) else none
  let freshHit : Bool :=
    match ratesOpt with
    | some (r :: _) => ! r.isStaleAfter env.now interval
    | _ => false
  if freshHit then
    (loadRatesLocked s (ratesOpt.getD []) "db_cache", none, [Effect.getLatestRates])
  else
    match fetchAndCacheRatesLocked s env with
    | (s', some e, tr) =>
      let sErr := { s' with lastError := some e }
      match ratesOpt with
      | some (r :: rs) =>
        (loadRatesLocked sErr (r :: rs) "db_stale", none, Effect.getLatestRates :: tr)
      | _ => (sErr, some (RateError.noRatesAvailable e), Effect.getLatestRates :: tr)
    | (s', none, tr) => (s', none, Effect.getLatestRates :: tr)

/-- `ensureRates`: load exchange rates into memory if needed, with the
double-checked freshness test (the second test is the re-check performed after
acquiring the write lock) and fallback to stale persisted rates. -/
def ensureRates (s : CurrencyService) (env : Env) :
    CurrencyService × Option RateError × List Effect :=
  let interval := getRefreshInterval env
  if isFresh s env.now interval then (s, none, [])
  else if isFresh s env.now interval then (s, none, [])
  else ensureRatesLockedBody s env interval

/-- `getCrossRate`: cross-rate via the EUR pivot on the loaded snapshot. -/
def getCrossRate (s : CurrencyService) (fromCur toCur : String) :
    Except RateError ℚ :=
  if fromCur = toCur then Except.ok 1
  else
    match mapGet s.eurRates fromCur, mapGet s.eurRates toCur with
    | some fromRate, some toRate =>
      if fromRate = 0 then Except.error (RateError.unsupportedPair fromCur toCur)
      else Except.ok (toRate / fromRate)
    | some _, none => Except.error (RateError.unsupportedPair fromCur toCur)
    | none, _ => Except.error (RateError.unsupportedPair fromCur toCur)

/-- `GetExchangeRate`: identity short-circuit, ECB-support validation, then
`ensureRates` followed by `getCrossRate`. -/
def getExchangeRate (s : CurrencyService) (env : Env)
    (fromCurrency toCurrency : String) :
    CurrencyService × Except RateError ℚ × List Effect :=
  if fromCurrency = toCurrency then (s, Except.ok 1, [])
  else if !HasECBRate fromCurrency || !HasECBRate toCurrency then
    (s, Except.error (RateError.unsupportedCurrency fromCurrency toCurrency), [])
  else
    match ensureRates s env with
    | (s', some e, tr) => (s', Except.error e, tr)
    | (s', none, tr) => (s', getCrossRate s' fromCurrency toCurrency, tr)

/-- `ConvertAmount`: `amount * GetExchangeRate(from, to)` (the Go value
returned alongside an error is its zero value, which `Except` leaves
implicit). -/
def convertAmount (s : CurrencyService) (env : Env) (amount : ℚ)
    (fromCurrency toCurrency : String) :
    CurrencyService × Except RateError ℚ × List Effect :=
  match getExchangeRate s env fromCurrency toCurrency with
  | (s', Except.error e, tr) => (s', Except.error e, tr)
  | (s', Except.ok rate, tr) => (s', Except.ok (amount * rate), tr)

/-- Modelled from the spec: `ExchangeRateRepository.DeleteStaleRates` is not
under `src/`; per the spec's `deleteOlderThan`, rows older than the cutoff age
are removed from the store. -/
def deleteStaleStore (st : Option (List ExchangeRate)) (now cutoff : Int) :
    Option (List ExchangeRate) :=
  st.map (List.filter (fun r => decide (now - r.date < cutoff)))

/-- `RefreshRates`: unconditionally fetch from the ECB; on failure record
`lastError` and propagate; on success run the 7-day retention cleanup, whose
own failure is logged and swallowed. -/
def refreshRates (s : CurrencyService) (env : Env) :
    CurrencyService × Option RateError × List Effect :=
  match fetchAndCacheRatesLocked s env with
  | (s', some e, tr) =>
    ({ s' with lastError := some e }, some (RateError.refreshFailed e), tr)
  | (s', none, tr) =>
    let s'' :=
      if env.deleteOk then
        { s' with store := deleteStaleStore s'.store env.now (7 * 24 * timeHour) }
      else s'
    (s'', none, tr ++ [Effect.deleteStaleRates (7 * 24 * timeHour)])

/-- The status value reported by `GetStatus` (string `LastError` rendering is
modelled by carrying the error value itself). -/
structure ExchangeRateStatus where
  lastFetch : Int
  rateDate : Int
  rateCount : Nat
  source : String
  lastError : Option RateError
  intervalH : Int
  rates : List (String × ℚ)
  deriving Repr, DecidableEq

/-- `GetStatus`: a pure read of the cache state; the rate list holds the
non-EUR entries sorted by currency code. -/
def getStatus (s : CurrencyService) (env : Env) : ExchangeRateStatus :=
  { lastFetch := s.lastFetch
    rateDate := s.rateDate
    rateCount := s.eurRates.length
    source := if s.rateSource = "" then "none" else s.rateSource
    lastError := s.lastError
    intervalH := env.settingHours
    rates :=
      if 0 < s.eurRates.length then
        List.insertionSort (fun a b : String × ℚ => a.1 ≤ b.1)
          (s.eurRates.filter (fun p => p.1 ≠ "EUR"))
      else [] }

instance : IsTotal (String × ℚ) (fun a b => a.1 ≤ b.1) :=
  ⟨fun a b => le_total a.1 b.1⟩

instance : IsTrans (String × ℚ) (fun a b => a.1 ≤ b.1) :=
  ⟨fun _ _ _ h h' => le_trans h h'⟩

/-- `GetStatus` as a state transition: it does not mutate the service. -/
def getStatusOp (s : CurrencyService) (env : Env) :
    CurrencyService × ExchangeRateStatus :=
  (s, getStatus s env)

/-- `n` callers running `ensureRates` one after the other under the same
environment — the serialization that the engine's reader/writer lock imposes
on `n` concurrent callers arriving at the same instant.  Returns the final
state and the concatenation of all external calls made. -/
def ensureRatesSeq (env : Env) : Nat → CurrencyService → CurrencyService × List Effect
  | 0, s => (s, [])
  | Nat.succ n, s =>
    match ensureRates s env with
    | (s', _, tr) =>
      match ensureRatesSeq env n s' with
      | (s'', trs) => (s'', tr ++ trs)

/-- One engine operation, from state `s` under environment `env`. -/
inductive StepTo : CurrencyService → Env → CurrencyService → Prop where
  | ensure (s : CurrencyService) (env : Env) : StepTo s env (ensureRates s env).1
  | refresh (s : CurrencyService) (env : Env) : StepTo s env (refreshRates s env).1
  | rate (s : CurrencyService) (env : Env) (fromCurrency toCurrency : String) :
      StepTo s env (getExchangeRate s env fromCurrency toCurrency).1
  | convert (s : CurrencyService) (env : Env) (amount : ℚ)
      (fromCurrency toCurrency : String) :
      StepTo s env (convertAmount s env amount fromCurrency toCurrency).1
  | status (s : CurrencyService) (env : Env) : StepTo s env (getStatusOp s env).1

/-- States reachable from a freshly constructed service (over an arbitrary
initial store content) by any sequence of engine operations under arbitrary
environments. -/
inductive Reachable : CurrencyService → Prop where
  | init (store₀ : Option (List ExchangeRate)) : Reachable (initService store₀)
  | step {s : CurrencyService} {env : Env} {s' : CurrencyService} :
      Reachable s → StepTo s env s' → Reachable s'

/-- Well-formed persisted rows: positive rates, and any EUR row quotes 1. -/
def rowsWF (rows : List ExchangeRate) : Prop :=
  ∀ r ∈ rows, 0 < r.rate ∧ (r.currency = "EUR" → r.rate = 1)

/-- Well-formed currency/rate pairs: positive rates, EUR (if present) is 1. -/
def pairsWF (l : List (String × ℚ)) : Prop :=
  ∀ p ∈ l, 0 < p.2 ∧ (p.1 = "EUR" → p.2 = 1)

/-- Well-formed store: whatever snapshot it holds has well-formed rows. -/
def storeWF (st : Option (List ExchangeRate)) : Prop :=
  rowsWF (st.getD [])

/-- Well-formed environment: any payload the remote feed delivers is
well-formed (the ECB publishes positive rates and never re-quotes EUR). -/
def envWF (env : Env) : Prop :=
  pairsWF (env.fetch.getD [])

/-- Well-formed in-memory map: an EUR entry exists and all pairs are
well-formed. -/
def mapWF (m : List (String × ℚ)) : Prop :=
  (∃ p ∈ m, p.1 = "EUR") ∧ pairsWF m

instance (l : List (String × ℚ)) : Decidable (pairsWF l) := by
  unfold pairsWF; infer_instance

instance (rows : List ExchangeRate) : Decidable (rowsWF rows) := by
  unfold rowsWF; infer_instance

instance (st : Option (List ExchangeRate)) : Decidable (storeWF st) := by
  unfold storeWF; infer_instance

instance (env : Env) : Decidable (envWF env) := by
  unfold envWF; infer_instance

instance (m : List (String × ℚ)) : Decidable (mapWF m) := by
  unfold mapWF pairsWF; infer_instance

/-- The spec's cache invariant relative to the engine's own state: the store
content is well-formed, and once a source is set the in-memory map is
well-formed. -/
def cacheWF (s : CurrencyService) : Prop :=
  storeWF s.store ∧ (s.rateSource ≠ "" → mapWF s.eurRates)

/-- The shape invariant of the in-memory map that holds on all reachable
states regardless of feed content: once non-empty, its keys are distinct and
include EUR. -/
def keysOK (s : CurrencyService) : Prop :=
  s.eurRates = [] ∨
    ((s.eurRates.map Prod.fst).Nodup ∧ "EUR" ∈ s.eurRates.map Prod.fst)

/-- States reachable as in `Reachable`, but starting from a well-formed store
and stepping only under well-formed environments. -/
inductive ReachableWF : CurrencyService → Prop where
  | init (store₀ : Option (List ExchangeRate)) (h : storeWF store₀) :
      ReachableWF (initService store₀)
  | step {s : CurrencyService} {env : Env} {s' : CurrencyService} :
      ReachableWF s → envWF env → StepTo s env s' → ReachableWF s'

/-- A concrete environment whose remote fetch fails. -/
def envFail : Env :=
  { now := 0, dbReadOk := true, fetch := none, saveOk := true,
    deleteOk := true, settingHours := 24 }

/-- A concrete environment whose remote fetch succeeds with one USD rate. -/
def envGood : Env := { envFail with fetch := some [("USD", 2)] }

/-- A concrete environment whose remote fetch delivers a zero rate. -/
def envZero : Env := { envFail with fetch := some [("USD", 0)] }

/-- A concrete environment with the refresh-hours setting at 200. -/
def env200 : Env := { envFail with settingHours := 200 }

/-- A concrete persisted snapshot, 30 hours old at instant 0. -/
def rowsStale : List ExchangeRate :=
  [{ baseCurrency := "EUR", currency := "USD", rate := 11/10, date := -(30*timeHour) },
   { baseCurrency := "EUR", currency := "EUR", rate := 1, date := -(30*timeHour) }]

/-- A fresh service over a store that holds the stale snapshot. -/
def sStale : CurrencyService := initService (some rowsStale)

/-- A concrete service state whose snapshot stores a zero rate for USD. -/
def sZeroRate : CurrencyService :=
  { initService none with eurRates := [("EUR", 1), ("USD", 0)] }

/-- The state after a successful explicit refresh from a fresh service. -/
def sEcb : CurrencyService := (refreshRates (initService none) envGood).1

/-- The state after a successful explicit refresh whose feed (ill-formedly)
delivered a zero rate. -/
def sZeroFeed : CurrencyService := (refreshRates (initService none) envZero).1

/-! ## Helper lemmas -/

theorem fetchAndCache_of_fails (s : CurrencyService) (env : Env) (h : fetchFails env) :
    ∃ e, fetchAndCacheRatesLocked s env = (s, some e, [Effect.fetchECB]) := by
  rcases h with h | h
  · exact ⟨RateError.fetchUnreachable, by simp [fetchAndCacheRatesLocked, h]⟩
  · exact ⟨RateError.emptyPayload, by simp [fetchAndCacheRatesLocked, h]⟩

theorem ensureRates_cold (s : CurrencyService) (env : Env)
    (hcold : isFresh s env.now (getRefreshInterval env) = false) :
    ensureRates s env = ensureRatesLockedBody s env (getRefreshInterval env) := by
  simp [ensureRates, hcold]

theorem ensureRates_fresh (s : CurrencyService) (env : Env)
    (h : isFresh s env.now (getRefreshInterval env) = true) :
    ensureRates s env = (s, none, []) := by
  simp [ensureRates, h]

theorem body_db_stale (s : CurrencyService) (env : Env) (interval : Int)
    (r : ExchangeRate) (rs : List ExchangeRate)
    (hdb : env.dbReadOk = true) (hst : s.store = some (r :: rs))
    (hstale : r.isStaleAfter env.now interval = true)
    (hfail : fetchFails env) :
    ∃ e, ensureRatesLockedBody s env interval =
      (loadRatesLocked { s with lastError := some e } (r :: rs) "db_stale", none,
       [Effect.getLatestRates, Effect.fetchECB]) := by
  obtain ⟨e, he⟩ := fetchAndCache_of_fails s env hfail
  refine ⟨e, ?_⟩
  simp [ensureRatesLockedBody, hdb, hst, hstale, he]

theorem body_no_rates (s : CurrencyService) (env : Env) (interval : Int)
    (hnone : env.dbReadOk = false ∨ s.store = none ∨ s.store = some [])
    (hfail : fetchFails env) :
    ∃ e, ensureRatesLockedBody s env interval =
      ({ s with lastError := some e }, some (RateError.noRatesAvailable e),
       [Effect.getLatestRates, Effect.fetchECB]) := by
  obtain ⟨e, he⟩ := fetchAndCache_of_fails s env hfail
  refine ⟨e, ?_⟩
  rcases hnone with h | h | h <;> simp [ensureRatesLockedBody, h, he]

theorem getCrossRate_ok (s : CurrencyService) (fromCur toCur : String)
    (hne : fromCur ≠ toCur) (fr tr : ℚ)
    (hf : mapGet s.eurRates fromCur = some fr)
    (ht : mapGet s.eurRates toCur = some tr) (h0 : fr ≠ 0) :
    getCrossRate s fromCur toCur = Except.ok (tr / fr) := by
  simp [getCrossRate, hne, hf, ht, h0]

theorem mapInsert_length_pos (m : List (String × ℚ)) (k : String) (v : ℚ)
    (h : 0 < m.length) : 0 < (mapInsert m k v).length := by
  unfold mapInsert
  split
  · simpa using h
  · simp

theorem foldl_mapInsert_length_pos {α : Type} (key : α → String) (val : α → ℚ)
    (l : List α) (m : List (String × ℚ)) (h : 0 < m.length) :
    0 < (l.foldl (fun m a => mapInsert m (key a) (val a)) m).length := by
  induction l generalizing m with
  | nil => exact h
  | cons a l ih => exact ih _ (mapInsert_length_pos m (key a) (val a) h)

theorem fetchAndCache_of_success (s : CurrencyService) (env : Env)
    (a : String × ℚ) (l : List (String × ℚ)) (hfetch : env.fetch = some (a :: l)) :
    (fetchAndCacheRatesLocked s env).2.1 = none ∧
    (fetchAndCacheRatesLocked s env).2.2 = [Effect.fetchECB, Effect.saveRates] ∧
    (fetchAndCacheRatesLocked s env).1.rateDate = env.now ∧
    0 < (fetchAndCacheRatesLocked s env).1.eurRates.length := by
  refine ⟨?_, ?_, ?_, ?_⟩
  · simp [fetchAndCacheRatesLocked, hfetch]
  · simp [fetchAndCacheRatesLocked, hfetch]
  · simp only [fetchAndCacheRatesLocked, hfetch, List.isEmpty_cons, Bool.false_eq_true,
      if_false]
    split <;> rfl
  · simp only [fetchAndCacheRatesLocked, hfetch, List.isEmpty_cons, Bool.false_eq_true,
      if_false]
    split
    all_goals
      exact foldl_mapInsert_length_pos Prod.fst Prod.snd _ _ (by decide)

theorem getRefreshInterval_pos (env : Env) : 0 < getRefreshInterval env := by
  unfold getRefreshInterval
  split
  · norm_num [timeHour]
  · next h => exact mul_pos (by omega) (by norm_num [timeHour])

theorem ensureRatesSeq_fresh (env : Env) (n : Nat) (s : CurrencyService)
    (h : isFresh s env.now (getRefreshInterval env) = true) :
    ensureRatesSeq env n s = (s, []) := by
  induction n with
  | zero => rfl
  | succ n ih => simp [ensureRatesSeq, ensureRates_fresh s env h, ih]

theorem ensureRates_singleflight_step (s : CurrencyService) (env : Env)
    (hcold : isFresh s env.now (getRefreshInterval env) = false)
    (hnofresh : env.dbReadOk = false ∨ s.store = none ∨ s.store = some [] ∨
      ∀ r rs, s.store = some (r :: rs) →
        r.isStaleAfter env.now (getRefreshInterval env) = true)
    (a : String × ℚ) (l : List (String × ℚ)) (hfetch : env.fetch = some (a :: l)) :
    ensureRates s env = ((fetchAndCacheRatesLocked s env).1, none,
      [Effect.getLatestRates, Effect.fetchECB, Effect.saveRates]) ∧
    isFresh (fetchAndCacheRatesLocked s env).1 env.now (getRefreshInterval env) = true := by
  obtain ⟨hres, htr, hrd, hlen⟩ := fetchAndCache_of_success s env a l hfetch
  have hfreshAfter :
      isFresh (fetchAndCacheRatesLocked s env).1 env.now (getRefreshInterval env) = true := by
    simp [isFresh, hrd, hlen, getRefreshInterval_pos env]
  refine ⟨?_, hfreshAfter⟩
  rw [ensureRates_cold s env hcold]
  rcases hFC : fetchAndCacheRatesLocked s env with ⟨s', res, tr⟩
  rw [hFC] at hres htr
  simp only at hres htr
  subst hres htr
  rcases hnofresh with h | h | h | h
  · simp [ensureRatesLockedBody, h, hFC]
  · simp [ensureRatesLockedBody, h, hFC]
  · simp [ensureRatesLockedBody, h, hFC]
  · rcases hst : s.store with _ | rows
    · simp [ensureRatesLockedBody, hst, hFC]
    · rcases rows with _ | ⟨r, rs⟩
      · simp [ensureRatesLockedBody, hst, hFC]
      · have hstale := h r rs hst
        rcases hdb : env.dbReadOk with _ | _
        · simp [ensureRatesLockedBody, hdb, hFC]
        · simp [ensureRatesLockedBody, hdb, hst, hstale, hFC]

theorem keys_mapInsert (m : List (String × ℚ)) (k : String) (v : ℚ) :
    (mapInsert m k v).map Prod.fst =
      if m.any (fun p => p.1 = k) then m.map Prod.fst
      else m.map Prod.fst ++ [k] := by
  unfold mapInsert
  split
  · rw [List.map_map]
    apply List.map_congr_left
    intro p _
    by_cases h : p.1 = k <;> simp [h]
  · simp

theorem keys_nodup_mapInsert {m : List (String × ℚ)} {k : String} {v : ℚ}
    (h : (m.map Prod.fst).Nodup) : ((mapInsert m k v).map Prod.fst).Nodup := by
  rw [keys_mapInsert]
  split
  · exact h
  · next hany =>
    have hk : k ∉ m.map Prod.fst := by
      simp only [List.any_eq_true, decide_eq_true_eq] at hany
      simp only [List.mem_map]
      rintro ⟨p, hp, hpk⟩
      exact hany ⟨p, hp, hpk⟩
    simp [List.nodup_append, h, hk]

theorem keys_mem_mapInsert {m : List (String × ℚ)} {k' k : String} {v : ℚ}
    (h : k' ∈ m.map Prod.fst) : k' ∈ (mapInsert m k v).map Prod.fst := by
  rw [keys_mapInsert]
  split
  · exact h
  · exact List.mem_append_left _ h

theorem keys_foldl_mapInsert {α : Type} (key : α → String) (val : α → ℚ)
    (l : List α) (m : List (String × ℚ)) (hn : (m.map Prod.fst).Nodup)
    (hm : "EUR" ∈ m.map Prod.fst) :
    ((l.foldl (fun mm a => mapInsert mm (key a) (val a)) m).map Prod.fst).Nodup ∧
    "EUR" ∈ (l.foldl (fun mm a => mapInsert mm (key a) (val a)) m).map Prod.fst := by
  induction l generalizing m with
  | nil => exact ⟨hn, hm⟩
  | cons a l ih => exact ih _ (keys_nodup_mapInsert hn) (keys_mem_mapInsert hm)

theorem mapWF_insert {m : List (String × ℚ)} {k : String} {v : ℚ}
    (h : mapWF m) (hv : 0 < v) (hk : k = "EUR" → v = 1) :
    mapWF (mapInsert m k v) := by
  obtain ⟨⟨p₀, hp₀, hp₀k⟩, hWF⟩ := h
  unfold mapInsert
  split
  · next hany =>
    constructor
    · refine ⟨if p₀.1 = k then (k, v) else p₀, List.mem_map_of_mem _ hp₀, ?_⟩
      by_cases h : p₀.1 = k
      · rw [if_pos h]
        exact h.symm.trans hp₀k
      · rw [if_neg h]
        exact hp₀k
    · intro q hq
      obtain ⟨p, hp, hpq⟩ := List.mem_map.mp hq
      by_cases h : p.1 = k
      · rw [← hpq]
        simp only [h, if_pos rfl]
        exact ⟨hv, hk⟩
      · rw [← hpq]
        simp only [h, if_neg h, if_false]
        exact hWF p hp
  · constructor
    · exact ⟨p₀, List.mem_append_left _ hp₀, hp₀k⟩
    · intro q hq
      rcases List.mem_append.mp hq with h | h
      · exact hWF q h
      · rw [List.mem_singleton.mp h]
        exact ⟨hv, hk⟩

theorem mapWF_foldl {α : Type} (key : α → String) (val : α → ℚ)
    (l : List α) (m : List (String × ℚ)) (h : mapWF m)
    (hl : ∀ a ∈ l, 0 < val a ∧ (key a = "EUR" → val a = 1)) :
    mapWF (l.foldl (fun mm a => mapInsert mm (key a) (val a)) m) := by
  induction l generalizing m with
  | nil => exact h
  | cons a l ih =>
    exact ih _ (mapWF_insert h (hl a (List.mem_cons_self a l)).1
      (hl a (List.mem_cons_self a l)).2)
      (fun b hb => hl b (List.mem_cons_of_mem a hb))

theorem mapWF_start : mapWF [("EUR", (1 : ℚ))] := by decide

theorem mapGet_EUR_of_mapWF {m : List (String × ℚ)} (h : mapWF m) :
    mapGet m "EUR" = some 1 := by
  obtain ⟨⟨p₀, hp₀, hp₀k⟩, hWF⟩ := h
  have hsome : (m.find? (fun p => p.1 = "EUR")).isSome := by
    rw [List.find?_isSome]
    exact ⟨p₀, hp₀, by simp [hp₀k]⟩
  obtain ⟨q, hq⟩ := Option.isSome_iff_exists.mp hsome
  have hqmem := List.mem_of_find?_eq_some hq
  have hqkey : q.1 = "EUR" := by
    have := List.find?_some hq
    simpa using this
  have hqval : q.2 = 1 := (hWF q hqmem).2 hqkey
  simp [mapGet, hq, hqval]

theorem mapWF_ne_nil {m : List (String × ℚ)} (h : mapWF m) : m ≠ [] := by
  obtain ⟨⟨p₀, hp₀, _⟩, _⟩ := h
  exact List.ne_nil_of_mem hp₀

theorem fetchAndCache_fail_state (s : CurrencyService) (env : Env) (e : RateError)
    (h : (fetchAndCacheRatesLocked s env).2.1 = some e) :
    (fetchAndCacheRatesLocked s env).1 = s := by
  rcases hF : env.fetch with _ | l
  · simp [fetchAndCacheRatesLocked, hF]
  · rcases l with _ | ⟨a, l⟩
    · simp [fetchAndCacheRatesLocked, hF]
    · have := (fetchAndCache_of_success s env a l hF).1
      rw [this] at h
      cases h

theorem fetchAndCache_cases (s : CurrencyService) (env : Env) :
    (fetchAndCacheRatesLocked s env).1 = s ∨
    (∃ a l, env.fetch = some (a :: l) ∧
      (fetchAndCacheRatesLocked s env).1.eurRates =
        (a :: l).foldl (fun m p => mapInsert m p.1 p.2) [("EUR", 1)] ∧
      (fetchAndCacheRatesLocked s env).1.rateSource = "ecb" ∧
      ((fetchAndCacheRatesLocked s env).1.store = s.store ∨
        (fetchAndCacheRatesLocked s env).1.store =
          some (((a :: l).foldl (fun m p => mapInsert m p.1 p.2) [("EUR", 1)]).map
            (fun p => { baseCurrency := "EUR", currency := p.1, rate := p.2,
                        date := env.now })))) := by
  rcases hF : env.fetch with _ | l
  · left; simp [fetchAndCacheRatesLocked, hF]
  · rcases l with _ | ⟨a, l⟩
    · left; simp [fetchAndCacheRatesLocked, hF]
    · right
      refine ⟨a, l, rfl, ?_, ?_, ?_⟩
      · simp only [fetchAndCacheRatesLocked, hF, List.isEmpty_cons, Bool.false_eq_true,
          if_false]
        split <;> rfl
      · simp only [fetchAndCacheRatesLocked, hF, List.isEmpty_cons, Bool.false_eq_true,
          if_false]
        split <;> rfl
      · simp only [fetchAndCacheRatesLocked, hF, List.isEmpty_cons, Bool.false_eq_true,
          if_false]
        split
        · right; rfl
        · left; rfl

theorem ensureRates_cases (s : CurrencyService) (env : Env) :
    (ensureRates s env).1 = s ∨
    (∃ e, (ensureRates s env).1 = { s with lastError := some e }) ∨
    (∃ rows src, s.store = some rows ∧ rows ≠ [] ∧
      ((ensureRates s env).1 = loadRatesLocked s rows src ∨
        ∃ e, (ensureRates s env).1 =
          loadRatesLocked { s with lastError := some e } rows src)) ∨
    (ensureRates s env).1 = (fetchAndCacheRatesLocked s env).1 := by
  cases hfr : isFresh s env.now (getRefreshInterval env) with
  | true => left; rw [ensureRates_fresh s env hfr]
  | false =>
    rw [ensureRates_cold s env hfr]
    rcases hFC : fetchAndCacheRatesLocked s env with ⟨s', res, tr⟩
    have hsp : ∀ e, res = some e → s' = s := by
      intro e he
      have h21 : (fetchAndCacheRatesLocked s env).2.1 = some e := by rw [hFC, he]
      have h1 := fetchAndCache_fail_state s env e h21
      rw [hFC] at h1
      exact h1
    rcases hdb : env.dbReadOk with _ | _
    · rcases res with _ | e
      · right; right; right
        simp [ensureRatesLockedBody, hdb, hFC]
      · right; left
        refine ⟨e, ?_⟩
        have := hsp e rfl
        simp [ensureRatesLockedBody, hdb, hFC, this]
    · rcases hst : s.store with _ | rows
      · rcases res with _ | e
        · right; right; right
          simp [ensureRatesLockedBody, hdb, hst, hFC]
        · right; left
          refine ⟨e, ?_⟩
          have := hsp e rfl
          simp [ensureRatesLockedBody, hdb, hst, hFC, this]
      · rcases rows with _ | ⟨r, rs⟩
        · rcases res with _ | e
          · right; right; right
            simp [ensureRatesLockedBody, hdb, hst, hFC]
          · right; left
            refine ⟨e, ?_⟩
            have := hsp e rfl
            simp [ensureRatesLockedBody, hdb, hst, hFC, this]
        · cases hstale : r.isStaleAfter env.now (getRefreshInterval env) with
          | false =>
            right; right; left
            refine ⟨r :: rs, "db_cache", rfl, by simp, Or.inl ?_⟩
            simp [ensureRatesLockedBody, hdb, hst, hstale]
          | true =>
            rcases res with _ | e
            · right; right; right
              simp [ensureRatesLockedBody, hdb, hst, hstale, hFC]
            · right; right; left
              refine ⟨r :: rs, "db_stale", rfl, by simp, Or.inr ⟨e, ?_⟩⟩
              have := hsp e rfl
              simp [ensureRatesLockedBody, hdb, hst, hstale, hFC, this]

theorem refreshRates_cases (s : CurrencyService) (env : Env) :
    (∃ e, (refreshRates s env).1 = { s with lastError := some e }) ∨
    (refreshRates s env).1 = (fetchAndCacheRatesLocked s env).1 ∨
    (refreshRates s env).1 =
      { (fetchAndCacheRatesLocked s env).1 with
        store := deleteStaleStore (fetchAndCacheRatesLocked s env).1.store
          env.now (7 * 24 * timeHour) } := by
  rcases hFC : fetchAndCacheRatesLocked s env with ⟨s', res, tr⟩
  rcases res with _ | e
  · rcases hdel : env.deleteOk with _ | _
    · right; left
      simp [refreshRates, hFC, hdel]
    · right; right
      simp [refreshRates, hFC, hdel]
  · left
    refine ⟨e, ?_⟩
    have h21 : (fetchAndCacheRatesLocked s env).2.1 = some e := by rw [hFC]
    have h1 := fetchAndCache_fail_state s env e h21
    rw [hFC] at h1
    have h1' : s' = s := h1
    simp [refreshRates, hFC, h1']

theorem getExchangeRate_state (s : CurrencyService) (env : Env)
    (fromCurrency toCurrency : String) :
    (getExchangeRate s env fromCurrency toCurrency).1 = s ∨
    (getExchangeRate s env fromCurrency toCurrency).1 = (ensureRates s env).1 := by
  by_cases h : fromCurrency = toCurrency
  · left; simp [getExchangeRate, h]
  · cases h2 : (!HasECBRate fromCurrency || !HasECBRate toCurrency) with
    | true => left; simp [getExchangeRate, h, h2]
    | false =>
      right
      rcases hE : ensureRates s env with ⟨s', r, tr⟩
      rcases r with _ | e <;> simp [getExchangeRate, h, h2, hE]

theorem convertAmount_state (s : CurrencyService) (env : Env) (amount : ℚ)
    (fromCurrency toCurrency : String) :
    (convertAmount s env amount fromCurrency toCurrency).1 =
      (getExchangeRate s env fromCurrency toCurrency).1 := by
  rcases hE : getExchangeRate s env fromCurrency toCurrency with ⟨s', r, tr⟩
  rcases r <;> simp [convertAmount, hE]

theorem keysOK_load (s : CurrencyService) (rows : List ExchangeRate)
    (src : String) : keysOK (loadRatesLocked s rows src) :=
  Or.inr (keys_foldl_mapInsert ExchangeRate.currency ExchangeRate.rate rows
    [("EUR", 1)] (by decide) (by decide))

theorem keysOK_fAC (s : CurrencyService) (env : Env) (h : keysOK s) :
    keysOK (fetchAndCacheRatesLocked s env).1 := by
  rcases fetchAndCache_cases s env with hc | ⟨a, l, _, heur, _, _⟩
  · rw [hc]; exact h
  · unfold keysOK
    right
    rw [heur]
    exact keys_foldl_mapInsert Prod.fst Prod.snd (a :: l) [("EUR", 1)]
      (by decide) (by decide)

theorem keysOK_ensure (s : CurrencyService) (env : Env) (h : keysOK s) :
    keysOK (ensureRates s env).1 := by
  rcases ensureRates_cases s env with
    hc | ⟨e, hc⟩ | ⟨rows, src, hst, hne, hc | ⟨e, hc⟩⟩ | hc
  · rw [hc]; exact h
  · rw [hc]; exact h
  · rw [hc]; exact keysOK_load s rows src
  · rw [hc]; exact keysOK_load _ rows src
  · rw [hc]; exact keysOK_fAC s env h

theorem keysOK_refresh (s : CurrencyService) (env : Env) (h : keysOK s) :
    keysOK (refreshRates s env).1 := by
  rcases refreshRates_cases s env with ⟨e, hc⟩ | hc | hc
  · rw [hc]; exact h
  · rw [hc]; exact keysOK_fAC s env h
  · rw [hc]; exact keysOK_fAC s env h

theorem reachable_keysOK (s : CurrencyService) (h : Reachable s) : keysOK s := by
  induction h with
  | init store₀ => exact Or.inl rfl
  | @step s env s' hr hstep ih =>
    cases hstep with
    | ensure => exact keysOK_ensure s env ih
    | refresh => exact keysOK_refresh s env ih
    | rate fromCurrency toCurrency =>
      rcases getExchangeRate_state s env fromCurrency toCurrency with hc | hc
      · rw [hc]; exact ih
      · rw [hc]; exact keysOK_ensure s env ih
    | convert amount fromCurrency toCurrency =>
      rw [convertAmount_state s env amount fromCurrency toCurrency]
      rcases getExchangeRate_state s env fromCurrency toCurrency with hc | hc
      · rw [hc]; exact ih
      · rw [hc]; exact keysOK_ensure s env ih
    | status => exact ih

theorem pairsWF_of_envWF {env : Env} {l : List (String × ℚ)}
    (h : envWF env) (hF : env.fetch = some l) : pairsWF l := by
  unfold envWF at h
  rw [hF] at h
  exact h

theorem rowsWF_of_storeWF {st : Option (List ExchangeRate)}
    {rows : List ExchangeRate} (h : storeWF st) (hst : st = some rows) :
    rowsWF rows := by
  unfold storeWF at h
  rw [hst] at h
  exact h

theorem storeWF_delete (st : Option (List ExchangeRate)) (now cutoff : Int)
    (h : storeWF st) : storeWF (deleteStaleStore st now cutoff) := by
  rcases st with _ | rows
  · exact h
  · intro r hr
    exact h r (List.mem_of_mem_filter hr)

theorem cacheWF_load (s : CurrencyService) (rows : List ExchangeRate)
    (src : String) (hst : storeWF s.store) (hrows : rowsWF rows) :
    cacheWF (loadRatesLocked s rows src) :=
  ⟨hst, fun _ =>
    mapWF_foldl ExchangeRate.currency ExchangeRate.rate rows [("EUR", 1)]
      mapWF_start hrows⟩

theorem cacheWF_fAC (s : CurrencyService) (env : Env) (h : cacheWF s)
    (henv : envWF env) : cacheWF (fetchAndCacheRatesLocked s env).1 := by
  rcases fetchAndCache_cases s env with hc | ⟨a, l, hF, heur, hsrc, hstore⟩
  · rw [hc]; exact h
  · have hpairs : pairsWF (a :: l) := pairsWF_of_envWF henv hF
    have hmap : mapWF ((a :: l).foldl (fun m p => mapInsert m p.1 p.2) [("EUR", 1)]) :=
      mapWF_foldl Prod.fst Prod.snd (a :: l) [("EUR", 1)] mapWF_start hpairs
    constructor
    · rcases hstore with hs | hs
      · rw [hs]; exact h.1
      · rw [hs]
        intro r hr
        obtain ⟨p, hp, rfl⟩ := List.mem_map.mp hr
        exact ⟨(hmap.2 p hp).1, (hmap.2 p hp).2⟩
    · intro _
      rw [heur]
      exact hmap

theorem cacheWF_ensure (s : CurrencyService) (env : Env) (h : cacheWF s)
    (henv : envWF env) : cacheWF (ensureRates s env).1 := by
  rcases ensureRates_cases s env with
    hc | ⟨e, hc⟩ | ⟨rows, src, hst, hne, hc | ⟨e, hc⟩⟩ | hc
  · rw [hc]; exact h
  · rw [hc]; exact h
  · rw [hc]; exact cacheWF_load s rows src h.1 (rowsWF_of_storeWF h.1 hst)
  · rw [hc]; exact cacheWF_load _ rows src h.1 (rowsWF_of_storeWF h.1 hst)
  · rw [hc]; exact cacheWF_fAC s env h henv

theorem cacheWF_refresh (s : CurrencyService) (env : Env) (h : cacheWF s)
    (henv : envWF env) : cacheWF (refreshRates s env).1 := by
  rcases refreshRates_cases s env with ⟨e, hc⟩ | hc | hc
  · rw [hc]; exact h
  · rw [hc]; exact cacheWF_fAC s env h henv
  · rw [hc]
    have hf := cacheWF_fAC s env h henv
    exact ⟨storeWF_delete _ _ _ hf.1, hf.2⟩

theorem reachableWF_cacheWF (s : CurrencyService) (h : ReachableWF s) :
    cacheWF s := by
  induction h with
  | init store₀ hst => exact ⟨hst, fun hne => absurd rfl hne⟩
  | @step s env s' hr henv hstep ih =>
    cases hstep with
    | ensure => exact cacheWF_ensure s env ih henv
    | refresh => exact cacheWF_refresh s env ih henv
    | rate fromCurrency toCurrency =>
      rcases getExchangeRate_state s env fromCurrency toCurrency with hc | hc
      · rw [hc]; exact ih
      · rw [hc]; exact cacheWF_ensure s env ih henv
    | convert amount fromCurrency toCurrency =>
      rw [convertAmount_state s env amount fromCurrency toCurrency]
      rcases getExchangeRate_state s env fromCurrency toCurrency with hc | hc
      · rw [hc]; exact ih
      · rw [hc]; exact cacheWF_ensure s env ih henv
    | status => exact ih

theorem length_filter_ne_eur (m : List (String × ℚ))
    (hnd : (m.map Prod.fst).Nodup) (hmem : "EUR" ∈ m.map Prod.fst) :
    m.length = (m.filter (fun p => p.1 ≠ "EUR")).length + 1 := by
  induction m with
  | nil => cases hmem
  | cons a m ih =>
    simp only [List.map_cons, List.nodup_cons] at hnd
    by_cases hk : a.1 = "EUR"
    · have hrest : m.filter (fun p => p.1 ≠ "EUR") = m := by
        rw [List.filter_eq_self]
        intro k hkm
        rw [decide_eq_true_eq]
        intro hke
        exact hnd.1 (by rw [hk, ← hke]; exact List.mem_map_of_mem Prod.fst hkm)
      have hfc : (a :: m).filter (fun p => p.1 ≠ "EUR") = m := by
        have hcond : decide (a.1 ≠ "EUR") = false := by simp [hk]
        rw [List.filter_cons, hcond, if_neg (by simp)]
        exact hrest
      rw [hfc, List.length_cons]
    · have hmem' : "EUR" ∈ m.map Prod.fst := by
        rcases List.mem_cons.mp hmem with h | h
        · exact absurd h.symm hk
        · exact h
      have hfc : (a :: m).filter (fun p => p.1 ≠ "EUR") =
          a :: m.filter (fun p => p.1 ≠ "EUR") := by
        have hcond : decide (a.1 ≠ "EUR") = true := by simp [hk]
        rw [List.filter_cons, hcond, if_pos rfl]
      rw [hfc, List.length_cons, List.length_cons, ih hnd.2 hmem']

/-! ## Claim theorems -/

/-- C9: for every currency `X` and every amount, `ConvertAmount(amount, X, X)`
returns exactly `amount` with no error, leaves the state unchanged and makes
no store read, no remote fetch and no store write. -/
theorem convert_identity (s : CurrencyService) (env : Env) (amount : ℚ) (x : String) :
    convertAmount s env amount x x = (s, Except.ok amount, []) := by
  simp [convertAmount, getExchangeRate]

/-- C4: calling `GetExchangeRate` on distinct currencies of which one is not
pivot-quotable returns the unsupported-currency error with the state unchanged
and no external call made (no store read, no remote fetch). -/
theorem getRate_unsupported_before_cache (s : CurrencyService) (env : Env)
    (fromCurrency toCurrency : String) (hne : fromCurrency ≠ toCurrency)
    (hunsup : HasECBRate fromCurrency = false ∨ HasECBRate toCurrency = false) :
    getExchangeRate s env fromCurrency toCurrency =
      (s, Except.error (RateError.unsupportedCurrency fromCurrency toCurrency), []) := by
  rcases hunsup with h | h <;> simp [getExchangeRate, hne, h]

/-- Witness for C4 at `RUB → EUR` (RUB is not quoted by the ECB). -/
theorem getRate_unsupported_before_cache_witness :
    getExchangeRate (initService none) envFail "RUB" "EUR" =
      ((initService none),
        Except.error (RateError.unsupportedCurrency "RUB" "EUR"), []) :=
  getRate_unsupported_before_cache _ _ _ _ (by decide) (Or.inl (by decide))

/-- C2 counterexample: `ConvertAmount(0, RUB, EUR)` does not succeed — the
zero amount is not special-cased, so the unsupported-currency error is
returned even though the claim says a zero amount converts without error. -/
theorem convert_zero_unsupported_errors :
    convertAmount (initService none) envFail 0 "RUB" "EUR" =
      ((initService none),
        Except.error (RateError.unsupportedCurrency "RUB" "EUR"), []) := by
  rfl

/-- C2 (amended): `ConvertAmount(0, from, to)` yields value `0` whenever a
rate is obtainable, and otherwise fails with exactly the error of
`GetExchangeRate(from, to)` — zero amounts get no special treatment. -/
theorem convert_zero_mirrors_getRate (s : CurrencyService) (env : Env)
    (fromCurrency toCurrency : String) :
    (convertAmount s env 0 fromCurrency toCurrency).2.1 =
      Except.map (fun _ => (0 : ℚ))
        (getExchangeRate s env fromCurrency toCurrency).2.1 := by
  rcases hE : getExchangeRate s env fromCurrency toCurrency with ⟨s', r, tr⟩
  cases r <;> simp [convertAmount, hE, Except.map]

/-- C7 counterexample: with the refresh-hours setting at 200, the effective
interval used by the freshness checks is 200 hours and `Status` reports 200,
both outside the claimed `[1, 168]` bound. -/
theorem refreshInterval_exceeds_bound :
    getRefreshInterval env200 = 200 * timeHour ∧
    (getStatus (initService none) env200).intervalH = 200 ∧
    ¬ ((200 : Int) ≤ 168) :=
  ⟨rfl, rfl, by decide⟩

/-- C7 (amended): the effective refresh interval is a whole number of hours,
clamped below at 1 but with no upper bound, namely `max 1 setting` hours;
`Status` reports the raw setting value without any clamping. -/
theorem refreshInterval_clamped_below (s : CurrencyService) (env : Env) :
    getRefreshInterval env = max 1 env.settingHours * timeHour ∧
    1 ≤ max 1 env.settingHours ∧
    (getStatus s env).intervalH = env.settingHours := by
  refine ⟨?_, le_max_left _ _, rfl⟩
  unfold getRefreshInterval
  rcases lt_or_le env.settingHours 1 with h | h
  · rw [if_pos h, max_eq_left (le_of_lt h)]
  · rw [if_neg (not_lt.mpr h), max_eq_right h]

/-- C3 counterexample: on a snapshot holding USD at rate 0, the cross-rate
from USD fails even though both currencies are present in the snapshot, so
the cross-rate does not fail *exactly* when a currency is absent. -/
theorem getCrossRate_zero_rate_fails :
    mapGet sZeroRate.eurRates "USD" = some 0 ∧
    mapGet sZeroRate.eurRates "EUR" = some 1 ∧
    getCrossRate sZeroRate "USD" "EUR" =
      Except.error (RateError.unsupportedPair "USD" "EUR") :=
  ⟨rfl, rfl, rfl⟩

/-- C3 (amended): the cross-rate returns exactly 1 when the currencies are
equal without reading the snapshot; otherwise it returns
`rates[to] / rates[from]`, and it fails exactly when either currency is
absent from the snapshot or the stored `from` rate is zero. -/
theorem getCrossRate_spec (s : CurrencyService) (fromCur toCur : String) :
    (fromCur = toCur → getCrossRate s fromCur toCur = Except.ok 1) ∧
    (fromCur ≠ toCur →
      (∀ fr tr, mapGet s.eurRates fromCur = some fr →
          mapGet s.eurRates toCur = some tr → fr ≠ 0 →
          getCrossRate s fromCur toCur = Except.ok (tr / fr)) ∧
      (getCrossRate s fromCur toCur =
          Except.error (RateError.unsupportedPair fromCur toCur) ↔
        mapGet s.eurRates fromCur = none ∨ mapGet s.eurRates toCur = none ∨
          mapGet s.eurRates fromCur = some 0)) := by
  constructor
  · intro h; simp [getCrossRate, h]
  · intro h
    constructor
    · intro fr tr hf ht hfr
      simp [getCrossRate, h, hf, ht, hfr]
    · rcases hf : mapGet s.eurRates fromCur with _ | fr
      · simp [getCrossRate, h, hf]
      · rcases ht : mapGet s.eurRates toCur with _ | tr
        · simp [getCrossRate, h, hf, ht]
        · by_cases hz : fr = 0 <;> simp [getCrossRate, h, hf, ht, hz]

/-- Witness for C3 on the post-refresh snapshot `{EUR: 1, USD: 2}`. -/
theorem getCrossRate_spec_witness :
    getCrossRate sEcb "USD" "EUR" = Except.ok (1 / 2) :=
  ((getCrossRate_spec sEcb "USD" "EUR").2 (by decide)).1 2 1 rfl rfl (by norm_num)

/-- C6: `RefreshRates` always performs the remote fetch (bypassing the TTL
check); on fetch failure it records `lastError`, returns the refresh error and
leaves everything else in the state unchanged and never runs the retention
cleanup; on fetch success it returns no error (even if the cleanup fails) and
runs the 7-day retention cleanup. -/
theorem refreshRates_spec (s : CurrencyService) (env : Env) :
    Effect.fetchECB ∈ (refreshRates s env).2.2 ∧
    (fetchFails env →
      (∃ e, (refreshRates s env).2.1 = some (RateError.refreshFailed e) ∧
          (refreshRates s env).1 = { s with lastError := some e }) ∧
      Effect.deleteStaleRates (7 * 24 * timeHour) ∉ (refreshRates s env).2.2) ∧
    (¬ fetchFails env →
      (refreshRates s env).2.1 = none ∧
      Effect.deleteStaleRates (7 * 24 * timeHour) ∈ (refreshRates s env).2.2) := by
  rcases hF : env.fetch with _ | l
  · have hff : fetchFails env := Or.inl hF
    refine ⟨?_, fun _ => ⟨⟨RateError.fetchUnreachable, ?_, ?_⟩, ?_⟩,
      fun hc => absurd hff hc⟩
    all_goals simp [refreshRates, fetchAndCacheRatesLocked, hF]
  · rcases l with _ | ⟨a, l⟩
    · have hff : fetchFails env := Or.inr hF
      refine ⟨?_, fun _ => ⟨⟨RateError.emptyPayload, ?_, ?_⟩, ?_⟩,
        fun hc => absurd hff hc⟩
      all_goals simp [refreshRates, fetchAndCacheRatesLocked, hF]
    · have hnf : ¬ fetchFails env := by simp [fetchFails, hF]
      refine ⟨?_, fun hc => absurd hc hnf, fun _ => ⟨?_, ?_⟩⟩
      all_goals simp [refreshRates, fetchAndCacheRatesLocked, hF]

/-- C1: with the in-memory cache empty or expired and a failing remote fetch,
`GetExchangeRate` on distinct pivot-quotable currencies succeeds from a stale
persisted snapshot that quotes them, after which `Status` reports source
`db_stale`; with no persisted snapshot it fails with the no-rates-available
error. -/
theorem getRate_fallback_ordering (s : CurrencyService) (env : Env)
    (fromCur toCur : String) (hne : fromCur ≠ toCur)
    (hf : HasECBRate fromCur = true) (ht : HasECBRate toCur = true)
    (hcold : isFresh s env.now (getRefreshInterval env) = false)
    (hfail : fetchFails env) :
    (∀ r rs, env.dbReadOk = true → s.store = some (r :: rs) →
        r.isStaleAfter env.now (getRefreshInterval env) = true →
        ∀ fr tr, mapGet (dbRatesToMap (r :: rs)) fromCur = some fr →
          mapGet (dbRatesToMap (r :: rs)) toCur = some tr → fr ≠ 0 →
          (getExchangeRate s env fromCur toCur).2.1 = Except.ok (tr / fr) ∧
          (getExchangeRate s env fromCur toCur).1.rateSource = "db_stale" ∧
          (getStatus (getExchangeRate s env fromCur toCur).1 env).source =
            "db_stale") ∧
    ((env.dbReadOk = false ∨ s.store = none ∨ s.store = some []) →
      ∃ e, (getExchangeRate s env fromCur toCur).2.1 =
        Except.error (RateError.noRatesAvailable e)) := by
  constructor
  · intro r rs hdb hst hstale fr trv hfr htr hfr0
    obtain ⟨e, he⟩ :=
      body_db_stale s env (getRefreshInterval env) r rs hdb hst hstale hfail
    have hER := (ensureRates_cold s env hcold).trans he
    have hGE : getExchangeRate s env fromCur toCur =
        (loadRatesLocked { s with lastError := some e } (r :: rs) "db_stale",
         getCrossRate
           (loadRatesLocked { s with lastError := some e } (r :: rs) "db_stale")
           fromCur toCur,
         [Effect.getLatestRates, Effect.fetchECB]) := by
      simp [getExchangeRate, hne, hf, ht, hER]
    have hcr : getCrossRate
        (loadRatesLocked { s with lastError := some e } (r :: rs) "db_stale")
        fromCur toCur = Except.ok (trv / fr) :=
      getCrossRate_ok _ _ _ hne fr trv hfr htr hfr0
    refine ⟨?_, ?_, ?_⟩
    · rw [hGE]; exact hcr
    · rw [hGE]; rfl
    · rw [hGE]; simp [getStatus, loadRatesLocked]
  · intro hnone
    obtain ⟨e, he⟩ := body_no_rates s env (getRefreshInterval env) hnone hfail
    have hER := (ensureRates_cold s env hcold).trans he
    exact ⟨e, by simp [getExchangeRate, hne, hf, ht, hER]⟩

/-- Witness for C1: USD → EUR over the 30-hour-old persisted snapshot with a
failing fetch, and the same call over an empty store. -/
theorem getRate_fallback_ordering_witness :
    (getExchangeRate sStale envFail "USD" "EUR").2.1 = Except.ok (1 / (11/10)) ∧
    (getExchangeRate sStale envFail "USD" "EUR").1.rateSource = "db_stale" ∧
    (getStatus (getExchangeRate sStale envFail "USD" "EUR").1 envFail).source =
      "db_stale" ∧
    (∃ e, (getExchangeRate (initService none) envFail "USD" "EUR").2.1 =
      Except.error (RateError.noRatesAvailable e)) := by
  have h := getRate_fallback_ordering sStale envFail "USD" "EUR"
    (by decide) (by decide) (by decide) (by decide) (Or.inl rfl)
  have h2 := getRate_fallback_ordering (initService none) envFail "USD" "EUR"
    (by decide) (by decide) (by decide) (by decide) (Or.inl rfl)
  obtain ⟨ha, hb, hc⟩ := h.1
    { baseCurrency := "EUR", currency := "USD", rate := 11/10, date := -(30*timeHour) }
    [{ baseCurrency := "EUR", currency := "EUR", rate := 1, date := -(30*timeHour) }]
    rfl rfl (by decide) (11/10) 1 rfl rfl (by norm_num)
  exact ⟨ha, hb, hc, h2.2 (Or.inr (Or.inl rfl))⟩

/-- C8 counterexample: two serialized callers that both observe an empty cache
while the remote fetch keeps failing and no snapshot is persisted perform two
remote fetches, not one — the claimed "exactly once" only holds when the
first caller's refresh succeeds. -/
theorem singleflight_two_fetches_on_failure :
    isFresh (initService none) envFail.now (getRefreshInterval envFail) = false ∧
    ((ensureRatesSeq envFail 2 (initService none)).2).count Effect.fetchECB = 2 := by
  constructor <;> rfl

/-- C8 (amended, lock-serialized model): when the serialized callers all
observe an empty or expired cache and no fresh persisted snapshot, and the
remote fetch succeeds, the first caller fetches once and every later caller
passes the re-checked freshness test, so the fetch happens exactly once
across all `n + 1` callers. -/
theorem singleflight_on_success (s : CurrencyService) (env : Env) (n : Nat)
    (hcold : isFresh s env.now (getRefreshInterval env) = false)
    (hnofresh : env.dbReadOk = false ∨ s.store = none ∨ s.store = some [] ∨
      ∀ r rs, s.store = some (r :: rs) →
        r.isStaleAfter env.now (getRefreshInterval env) = true)
    (a : String × ℚ) (l : List (String × ℚ)) (hfetch : env.fetch = some (a :: l)) :
    ((ensureRatesSeq env (n + 1) s).2).count Effect.fetchECB = 1 := by
  obtain ⟨h1, h2⟩ := ensureRates_singleflight_step s env hcold hnofresh a l hfetch
  simp [ensureRatesSeq, h1, ensureRatesSeq_fresh env n _ h2]

/-- Witness for C8: three serialized callers over an empty cache, empty store
and a succeeding fetch make exactly one remote fetch. -/
theorem singleflight_on_success_witness :
    ((ensureRatesSeq envGood 3 (initService none)).2).count Effect.fetchECB = 1 :=
  singleflight_on_success (initService none) envGood 2 (by decide)
    (Or.inr (Or.inl rfl)) ("USD", 2) [] rfl

/-- Witness for C6: a failing refresh at `envFail` and a succeeding one at
`envGood`. -/
theorem refreshRates_spec_witness :
    (∃ e, (refreshRates (initService none) envFail).2.1 =
          some (RateError.refreshFailed e) ∧
        (refreshRates (initService none) envFail).1 =
          { initService none with lastError := some e }) ∧
    Effect.deleteStaleRates (7 * 24 * timeHour) ∉
      (refreshRates (initService none) envFail).2.2 ∧
    (refreshRates (initService none) envGood).2.1 = none ∧
    Effect.deleteStaleRates (7 * 24 * timeHour) ∈
      (refreshRates (initService none) envGood).2.2 := by
  have h1 := (refreshRates_spec (initService none) envFail).2.1 (Or.inl rfl)
  have h2 := (refreshRates_spec (initService none) envGood).2.2 (by decide)
  exact ⟨h1.1, h1.2, h2.1, h2.2⟩

/-- C5 counterexample: the code never validates fetched rates, so a reachable
state (one refresh whose feed payload quotes USD at 0) has its source set
while storing a rate that is not positive — the claimed invariant fails as
stated. -/
theorem cache_invariant_fails_on_zero_feed :
    Reachable sZeroFeed ∧ sZeroFeed.rateSource = "ecb" ∧
      ¬ ∀ p ∈ sZeroFeed.eurRates, 0 < p.2 := by
  refine ⟨Reachable.step (Reachable.init none)
    (StepTo.refresh (initService none) envZero), rfl, ?_⟩
  decide

/-- C5 (amended): in every state reachable from a well-formed store under
environments whose feed payloads carry only positive rates (with any EUR entry
quoted at 1), a set rate source implies the in-memory map is non-empty, maps
EUR to exactly 1, and stores only positive rates. -/
theorem cache_invariant_of_wellformed_feed (s : CurrencyService)
    (h : ReachableWF s) (hs : s.rateSource ≠ "") :
    s.eurRates ≠ [] ∧ mapGet s.eurRates "EUR" = some 1 ∧
      ∀ p ∈ s.eurRates, 0 < p.2 := by
  have hwf := (reachableWF_cacheWF s h).2 hs
  exact ⟨mapWF_ne_nil hwf, mapGet_EUR_of_mapWF hwf,
    fun p hp => (hwf.2 p hp).1⟩

/-- Witness for C5 at the state reached by one successful well-formed
refresh. -/
theorem cache_invariant_of_wellformed_feed_witness :
    sEcb.eurRates ≠ [] ∧ mapGet sEcb.eurRates "EUR" = some 1 ∧
      ∀ p ∈ sEcb.eurRates, 0 < p.2 :=
  cache_invariant_of_wellformed_feed sEcb
    (ReachableWF.step (ReachableWF.init none (by decide)) (by decide)
      (StepTo.refresh (initService none) envGood))
    (by decide)

/-- C10: `GetStatus` leaves the service state unchanged; an unset source is
reported as "none"; and on a non-empty reachable cache the reported rate list
is the non-EUR entries in ascending currency order while `RateCount` counts
the whole map including EUR, hence exceeds the list length by one. -/
theorem getStatus_spec (s : CurrencyService) (env : Env) (h : Reachable s) :
    (getStatusOp s env).1 = s ∧
    (s.rateSource = "" → (getStatus s env).source = "none") ∧
    (s.eurRates ≠ [] →
      ((getStatus s env).rates).Perm
          (s.eurRates.filter (fun p => p.1 ≠ "EUR")) ∧
      ((getStatus s env).rates).Pairwise (fun a b => a.1 ≤ b.1) ∧
      (getStatus s env).rateCount = s.eurRates.length ∧
      (getStatus s env).rateCount = ((getStatus s env).rates).length + 1) := by
  refine ⟨rfl, ?_, ?_⟩
  · intro hsrc
    simp [getStatus, hsrc]
  · intro hne
    have hlen : 0 < s.eurRates.length := List.length_pos.mpr hne
    have hrates : (getStatus s env).rates =
        List.insertionSort (fun a b : String × ℚ => a.1 ≤ b.1)
          (s.eurRates.filter (fun p => p.1 ≠ "EUR")) := by
      simp [getStatus, hlen]
    rcases reachable_keysOK s h with hnil | ⟨hnd, hmem⟩
    · exact absurd hnil hne
    have hperm : ((getStatus s env).rates).Perm
        (s.eurRates.filter (fun p => p.1 ≠ "EUR")) := by
      rw [hrates]
      exact List.perm_insertionSort _ _
    refine ⟨hperm, ?_, rfl, ?_⟩
    · rw [hrates]
      exact List.sorted_insertionSort _ _
    · have hlenp := hperm.length_eq
      have hcount := length_filter_ne_eur s.eurRates hnd hmem
      rw [hlenp]
      exact hcount

/-- Witness for C10 at the state reached by one successful refresh. -/
theorem getStatus_spec_witness :
    (getStatusOp sEcb envGood).1 = sEcb ∧
    ((getStatus sEcb envGood).rates).Perm
        (sEcb.eurRates.filter (fun p => p.1 ≠ "EUR")) ∧
    ((getStatus sEcb envGood).rates).Pairwise (fun a b => a.1 ≤ b.1) ∧
    (getStatus sEcb envGood).rateCount = sEcb.eurRates.length ∧
    (getStatus sEcb envGood).rateCount =
      ((getStatus sEcb envGood).rates).length + 1 := by
  have h := getStatus_spec sEcb envGood
    (Reachable.step (Reachable.init none)
      (StepTo.refresh (initService none) envGood))
  have h2 := h.2.2 (by decide)
  exact ⟨h.1, h2.1, h2.2.1, h2.2.2.1, h2.2.2.2⟩

end Subvault
